import Mathlib

/-
  Verification development for the pluggable remote-content reader of the
  viavarejo/backstage repository.

  The embedding models `packages/backend-common/src/reading/GithubUrlReader.ts`
  and `packages/integration/src/helpers.ts` as pure Lean functions.  Network
  responses are supplied by an explicit `Upstream` value, and every operation
  additionally returns the list of upstream requests it issued, in order, so
  that claims about which fetches happen (and in which order) can be stated.
-/

namespace Backstage

/-- JavaScript truthiness of an optional string: `undefined` and `""` are falsy,
every other string is truthy.  Models conditions such as `options?.etag && ...`
and `!config.apiBaseUrl`. -/
def jsTruthy : Option String → Bool
  | none => false
  | some s => decide (s ≠ "")

/-- JavaScript template interpolation of a possibly-undefined string
(`undefined` interpolates as the text "undefined"). -/
def jsStr : Option String → String
  | none => "undefined"
  | some s => s

/-- JavaScript `a || b` on strings: yields `b` when `a` is the empty string. -/
def jsOrElse (a b : String) : String :=
  if a = "" then b else a

/-- JavaScript `String.prototype.replace` with a plain-string pattern: replaces
only the first occurrence of `pat` in `s`. -/
def replaceFirst (s pat sub : String) : String :=
  match s.splitOn pat with
  | [] => s
  | [x] => x
  | x :: rest => x ++ sub ++ String.intercalate pat rest

/-- JavaScript `query.replace(/^\/+/, "")`: strip every leading slash. -/
def stripLeadingSlashes (s : String) : String :=
  String.mk (s.toList.dropWhile (fun c => c = '/'))

/-- Modelled from the spec: single-segment shell-glob matching of the external
`minimatch` dependency, where `*` matches any run of characters inside one
segment and `?` matches exactly one character. -/
def segMatch : List Char → List Char → Bool
  | [], [] => true
  | '*' :: ps, [] => segMatch ps []
  | '*' :: ps, c :: cs => segMatch ps (c :: cs) || segMatch ('*' :: ps) cs
  | '?' :: _, [] => false
  | '?' :: ps, _ :: cs => segMatch ps cs
  | p :: ps, c :: cs => decide (p = c) && segMatch ps cs
  | _ :: _, [] => false
  | [], _ :: _ => false
termination_by ps cs => ps.length + cs.length
decreasing_by
  all_goals simp [List.length_cons]
  all_goals omega

/-- Modelled from the spec: path-level glob matching of the external `minimatch`
dependency over slash-separated segments, where a `**` segment matches zero or
more whole path segments. -/
def globSegsMatch : List (List Char) → List (List Char) → Bool
  | [], [] => true
  | [], _ :: _ => false
  | p :: ps, [] => decide (p = ['*', '*']) && globSegsMatch ps []
  | p :: ps, s :: ss =>
    if p = ['*', '*'] then globSegsMatch ps (s :: ss) || globSegsMatch (p :: ps) ss
    else segMatch p s && globSegsMatch ps ss
termination_by ps ss => ps.length + ss.length
decreasing_by
  all_goals simp [List.length_cons]
  all_goals omega

/-- Modelled from the spec: `new Minimatch(pattern).match(path)` of the external
`minimatch` dependency, with shell-style semantics (`*` within a segment, `**`
across segments, `?` a single character). -/
def minimatchMatch (pattern path : String) : Bool :=
  globSegsMatch ((pattern.splitOn "/").map String.toList)
    ((path.splitOn "/").map String.toList)

/-- The matcher `doSearch` builds: the query with leading slashes stripped,
compiled through minimatch. -/
def searchMatcher (query path : String) : Bool :=
  minimatchMatch (stripLeadingSlashes query) path

/-- Value of one base64 alphabet character, as used by the external
`Buffer.from(content, base64)` decoder. -/
def b64Val (c : Char) : Option Nat :=
  if 'A' ≤ c ∧ c ≤ 'Z' then some (c.toNat - 65)
  else if 'a' ≤ c ∧ c ≤ 'z' then some (c.toNat - 71)
  else if '0' ≤ c ∧ c ≤ '9' then some (c.toNat + 4)
  else if c = '+' then some 62
  else if c = '/' then some 63
  else none

/-- Regroup 6-bit base64 values into 8-bit bytes. -/
def b64Chunks : List Nat → List Nat
  | a :: b :: c :: d :: rest =>
    (a * 4 + b / 16) :: ((b % 16) * 16 + c / 4) :: ((c % 4) * 64 + d) :: b64Chunks rest
  | [a, b] => [a * 4 + b / 16]
  | [a, b, c] => [a * 4 + b / 16, (b % 16) * 16 + c / 4]
  | _ => []

/-- Modelled from the spec: `Buffer.from(content, base64)` of the external Node
runtime, decoding a base64 string into its byte sequence. -/
def base64Decode (s : String) : List Nat :=
  b64Chunks (s.toList.filterMap b64Val)

/-- The error taxonomy of the reader: `NotFoundError`, `NotModifiedError`, the
registry's unsupported-URL signal, and plain `Error` for every other failure. -/
inductive Err where
  | notFound (message : String)
  | notModified
  | unsupportedUrl (message : String)
  | generic (message : String)
deriving DecidableEq, Repr

/-- One upstream request issued by the reader, tagged by the endpoint kind. -/
inductive Request where
  | credentials (url : String)
  | repoMeta (url : String)
  | branchMeta (url : String)
  | treeListing (url : String)
  | archive (url : String)
  | blob (url : String)
deriving DecidableEq, Repr

/-- A request that transfers tree or file content (as opposed to credentials or
repository/branch metadata). -/
def isContentRequest : Request → Bool
  | .treeListing _ => true
  | .archive _ => true
  | .blob _ => true
  | _ => false

/-- `GitHubIntegrationConfig`: host plus optional apiBaseUrl, rawBaseUrl and
token. -/
structure GitHubIntegrationConfig where
  host : String
  apiBaseUrl : Option String := none
  rawBaseUrl : Option String := none
  token : Option String := none
deriving DecidableEq, Repr

/-- The constructed reader holds its integration config. -/
structure GithubUrlReader where
  config : GitHubIntegrationConfig
deriving DecidableEq, Repr

/-- Model of `new GithubUrlReader(config, deps)`: the constructor throws when
both `config.apiBaseUrl` and `config.rawBaseUrl` are JS-falsy. -/
def GithubUrlReader.make (config : GitHubIntegrationConfig) :
    Except String GithubUrlReader :=
  if jsTruthy config.apiBaseUrl = false ∧ jsTruthy config.rawBaseUrl = false then
    .error ("GitHub integration for " ++ config.host ++
      " must configure an explicit apiBaseUrl and rawBaseUrl")
  else
    .ok ⟨config⟩

/-- `toString()`: renders the host and `Boolean(token)`. -/
def GithubUrlReader.toString (reader : GithubUrlReader) : String :=
  "github\x7bhost=" ++ reader.config.host ++ ",authed=" ++
    (if jsTruthy reader.config.token then "true" else "false") ++ "\x7d"

/-- A parsed WHATWG URL, reduced to the components the reader consults. -/
structure Url where
  hostname : String
  port : Option String := none
deriving DecidableEq, Repr

/-- WHATWG URL `host`: the hostname followed by `:port` when a port is set. -/
def Url.host (u : Url) : String :=
  match u.port with
  | none => u.hostname
  | some p => u.hostname ++ ":" ++ p

/-- Model of `GithubUrlReader.factory`: one `(reader, predicate)` pair per
configured integration, the predicate being `url.host === provider.host`; a
throwing constructor propagates out of the factory. -/
def githubFactoryPairs :
    List GitHubIntegrationConfig →
    Except String (List (GithubUrlReader × (Url → Bool)))
  | [] => .ok []
  | c :: cs => do
    let reader ← GithubUrlReader.make c
    let rest ← githubFactoryPairs cs
    .ok ((reader, fun url => decide (url.host = c.host)) :: rest)

/-- Modelled from the spec: the Registry (not among the sources under `src`)
holds the factory's `(reader, predicate)` pairs and dispatches a URL to the
first pair whose predicate accepts it, signalling `UnsupportedUrl` when no
predicate matches. -/
def resolveUrlReader (pairs : List (GithubUrlReader × (Url → Bool)))
    (url : Url) : Except Err GithubUrlReader :=
  match pairs.find? (fun pair => pair.2 url) with
  | some pair => .ok pair.1
  | none => .error (.unsupportedUrl "Reader for URL is not supported")

/-- `ScmIntegrationsGroup` from `packages/integration/src/types.ts`, reduced to
the three accessors `helpers.ts` builds. -/
structure ScmIntegrationsGroup (T : Type) where
  list : List T
  byUrl : Url → Option T
  byHost : String → Option T

/-- `basicIntegrations` from `packages/integration/src/helpers.ts`: `byUrl`
compares each integration's host against the parsed URL's `hostname`, `byHost`
against the given string. -/
def basicIntegrations {T : Type} (integrations : List T)
    (getHost : T → String) : ScmIntegrationsGroup T :=
  { list := integrations
    byUrl := fun url => integrations.find? (fun i => decide (getHost i = url.hostname))
    byHost := fun host => integrations.find? (fun i => decide (getHost i = host)) }

/-- The first integration in list order whose host equals the given hostname,
written the way the claim states it (for comparison with `basicIntegrations`). -/
def firstWithHost {T : Type} (getHost : T → String) (host : String) :
    List T → Option T
  | [] => none
  | i :: rest => if getHost i = host then some i else firstWithHost getHost host rest

/-- The components of `parseGitUrl(url)` that the reader consults. -/
structure ParsedGitUrl where
  ref : String := ""
  full_name : String
  filepath : String := ""
deriving DecidableEq, Repr

/-- The repository-metadata response fields the reader consults. -/
structure RepoInfo where
  branches_url : String
  archive_url : String
  trees_url : String
  default_branch : String
deriving DecidableEq, Repr

/-- The branch-metadata response: `branch.commit.sha`. -/
structure BranchInfo where
  commitSha : String
deriving DecidableEq, Repr

/-- One entry of the recursive git tree listing (octokit `getTree` item); all
fields are optional in the upstream schema. -/
structure GhTreeItem where
  path : Option String := none
  type : Option String := none
  url : Option String := none
deriving DecidableEq, Repr

/-- The recursive tree listing response: entries plus the truncation flag. -/
structure GhTreeResponse where
  truncated : Bool
  tree : List GhTreeItem
deriving DecidableEq, Repr

/-- The upstream world a single reader call runs against: the external URL
parser, the metadata responses, the recursive tree listing, the blob store
(URL to base64 content) and the files contained in the tarball archive. -/
structure Upstream where
  parseGit : String → ParsedGitUrl
  repo : RepoInfo
  branch : BranchInfo
  recursiveTree : GhTreeResponse
  blobs : String → Option String
  archiveFiles : List (String × List Nat)

/-- `fetchJson` of a blob URL: the blob's base64 content, or `NotFoundError`
when the upstream has no blob at that URL. -/
def fetchBlob (w : Upstream) (url : String) : Except Err String :=
  match w.blobs url with
  | some content => .ok content
  | none => .error (.notFound ("Request failed for " ++ url ++ ", 404 Not Found"))

/-- A `ResponseFile`: a path plus a deferred content accessor.  The accessor is
a plain function of the upstream world it is invoked against. -/
structure ResponseFile where
  path : String
  content : Upstream → Except Err (List Nat)

/-- A `ReadTreeResponse`: the stamped etag plus the extracted files. -/
structure ReadTreeResponse where
  etag : String
  files : List ResponseFile

/-- A `SearchResponse`: the stamped etag plus the matching files. -/
structure SearchResponse where
  etag : String
  files : List ResponseFile

/-- `ReadTreeOptions`: optional etag and optional path filter. -/
structure ReadTreeOptions where
  etag : Option String := none
  filter : Option (String → Bool) := none

/-- `SearchOptions`: optional etag. -/
structure SearchOptions where
  etag : Option String := none

/-- Modelled from the spec: `treeResponseFactory.fromTarArchive` (its
implementation lives outside these sources).  The Tree Materializer keeps each
archive entry scoped under the subpath whose relative path passes the filter,
exposes each kept entry as a Response File with a deferred accessor for its
bytes, and stamps the supplied etag on the result. -/
def fromTarArchive (archiveFiles : List (String × List Nat))
    (subpath etag : String) (filter : Option (String → Bool)) : ReadTreeResponse :=
  let keep : String × List Nat → Option (String × List Nat) := fun entry =>
    match (if subpath = "" then some entry.1
           else if entry.1.startsWith (subpath ++ "/") then
             some (entry.1.drop (subpath.length + 1))
           else none) with
    | some rel =>
      match filter with
      | some f => if f rel then some (rel, entry.2) else none
      | none => some (rel, entry.2)
    | none => none
  let entries := archiveFiles.filterMap keep
  { etag := etag
    files := entries.map (fun e => { path := e.1, content := fun _ => .ok e.2 }) }

/-- `getRepoDetails`: fetches credentials, then the repository metadata at
`apiBaseUrl/repos/full_name`, then the branch metadata at `branches_url` with
`{/branch}` replaced by the parsed ref or the default branch. -/
def getRepoDetails (w : Upstream) (config : GitHubIntegrationConfig)
    (url : String) : (RepoInfo × BranchInfo) × List Request :=
  let parsed := w.parseGit url
  let repoUrl := jsStr config.apiBaseUrl ++ "/repos/" ++ parsed.full_name
  let branchUrl := replaceFirst w.repo.branches_url "\x7b/branch\x7d"
    ("/" ++ jsOrElse parsed.ref w.repo.default_branch)
  ((w.repo, w.branch), [.credentials url, .repoMeta repoUrl, .branchMeta branchUrl])

/-- `doReadTree`: fetches the tarball archive at `archive_url` with
`{archive_format}` and `{/ref}` substituted, and hands it to the tree response
factory together with the subpath, the etag (the commit sha) and the filter. -/
def doReadTree (w : Upstream) (archiveUrl sha subpath : String)
    (options : ReadTreeOptions) : ReadTreeResponse × List Request :=
  let archiveReqUrl :=
    replaceFirst (replaceFirst archiveUrl "\x7barchive_format\x7d" "tarball")
      "\x7b/ref\x7d" ("/" ++ sha)
  (fromTarArchive w.archiveFiles subpath sha options.filter, [.archive archiveReqUrl])

/-- `doSearch`: requests the recursive tree listing; when it is not truncated,
filters in memory for blob entries with truthy path and url whose path matches
the glob, each with a deferred blob-fetch accessor; when it is truncated, falls
back to a full `doReadTree` with the glob compiled into the path filter. -/
def doSearch (w : Upstream) (treesUrl archiveUrl sha query : String) :
    Except Err (List ResponseFile) × List Request :=
  let treeReqUrl := replaceFirst treesUrl "\x7b/sha\x7d" ("/" ++ sha ++ "?recursive=true")
  if !w.recursiveTree.truncated then
    let matching := w.recursiveTree.tree.filter (fun item =>
      decide (item.type = some "blob") && jsTruthy item.path && jsTruthy item.url &&
        searchMatcher query (item.path.getD ""))
    (.ok (matching.map (fun item =>
      { path := item.path.getD ""
        content := fun w2 => (fetchBlob w2 (item.url.getD "")).map base64Decode })),
      [.treeListing treeReqUrl])
  else
    let rt := doReadTree w archiveUrl sha ""
      { filter := some (fun p => searchMatcher query p) }
    (.ok rt.1.files, .treeListing treeReqUrl :: rt.2)

/-- `readTree(url, options)`: resolve repo and branch metadata, short-circuit
with `NotModifiedError` when the supplied etag is truthy and strictly equal to
the resolved commit sha, otherwise fetch credentials and the archive. -/
def GithubUrlReader.readTree (reader : GithubUrlReader) (w : Upstream)
    (url : String) (options : ReadTreeOptions := {}) :
    Except Err ReadTreeResponse × List Request :=
  let details := getRepoDetails w reader.config url
  let commitSha := details.1.2.commitSha
  if jsTruthy options.etag = true ∧ options.etag = some commitSha then
    (.error .notModified, details.2)
  else
    let parsed := w.parseGit url
    let rt := doReadTree w details.1.1.archive_url commitSha parsed.filepath options
    (.ok rt.1, details.2 ++ [.credentials url] ++ rt.2)

/-- `search(url, options)`: resolve repo and branch metadata, short-circuit on
a truthy etag strictly equal to the resolved commit sha, otherwise fetch
credentials, run `doSearch`, and stamp the commit sha as the response etag. -/
def GithubUrlReader.search (reader : GithubUrlReader) (w : Upstream)
    (url : String) (options : SearchOptions := {}) :
    Except Err SearchResponse × List Request :=
  let details := getRepoDetails w reader.config url
  let commitSha := details.1.2.commitSha
  if jsTruthy options.etag = true ∧ options.etag = some commitSha then
    (.error .notModified, details.2)
  else
    let parsed := w.parseGit url
    let dres := doSearch w details.1.1.trees_url details.1.1.archive_url commitSha
      parsed.filepath
    match dres.1 with
    | .ok files =>
      (.ok { files := files, etag := commitSha }, details.2 ++ [.credentials url] ++ dres.2)
    | .error e => (.error e, details.2 ++ [.credentials url] ++ dres.2)

/-- The outcome of the raw-content fetch performed by `read`: either an HTTP
response (status, status text, body text) or a transport failure thrown by
`fetch` itself. -/
inductive FetchOutcome where
  | response (status : Nat) (statusText : String) (text : String)
  | failure (message : String)
deriving DecidableEq, Repr

/-- The diagnostic message `read` builds for a non-OK response. -/
def readMessage (url ghUrl : String) (status : Nat) (statusText : String) : String :=
  url ++ " could not be read as " ++ ghUrl ++ ", " ++ ToString.toString status ++
    " " ++ statusText

/-- `read(url)`: resolve the raw fetch URL (external `getGitHubFileFetchUrl`,
supplied here as `ghUrl`), issue the GET, and shape the outcome: `ok` bodies
are returned whole, 404 becomes `NotFoundError`, every other non-2xx status
becomes a generic error carrying the status and status text, and a transport
failure becomes a generic error wrapping the thrown value. -/
def GithubUrlReader.read (url ghUrl : String) (outcome : FetchOutcome) :
    Except Err String :=
  match outcome with
  | .failure e => .error (.generic ("Unable to read " ++ url ++ ", " ++ e))
  | .response status statusText text =>
    if 200 ≤ status ∧ status < 300 then
      .ok text
    else if status = 404 then
      .error (.notFound (readMessage url ghUrl status statusText))
    else
      .error (.generic (readMessage url ghUrl status statusText))

/-! Helper lemmas about lists and the shared concrete upstream used to
instantiate theorems with hypotheses. -/

theorem map_fst_filterMap_guard {α : Type} (m : String → Bool)
    (l : List (String × α)) :
    (l.filterMap (fun e => if m e.1 then some (e.1, e.2) else none)).map Prod.fst
      = (l.map Prod.fst).filter m := by
  induction l with
  | nil => rfl
  | cons a as ih =>
    by_cases h : m a.1 <;>
      simp [List.filterMap_cons, h, ih, List.filter_cons]

theorem map_filter_comm {α β : Type} (f : α → β) (p : β → Bool) (l : List α) :
    (l.map f).filter p = (l.filter (fun a => p (f a))).map f := by
  induction l with
  | nil => rfl
  | cons a as ih =>
    by_cases h : p (f a) <;> simp [h, ih, List.filter_cons]

theorem filterFilter {α : Type} (p q : α → Bool) (l : List α) :
    (l.filter p).filter q = l.filter (fun a => p a && q a) := by
  induction l with
  | nil => rfl
  | cons a as ih =>
    by_cases hp : p a <;> by_cases hq : q a <;>
      simp [List.filter_cons, hp, hq, ih]

theorem find?_eq_firstWithHost {T : Type} (getHost : T → String) (h : String)
    (l : List T) :
    l.find? (fun i => decide (getHost i = h)) = firstWithHost getHost h l := by
  induction l with
  | nil => rfl
  | cons a as ih =>
    by_cases hc : getHost a = h
    · rw [List.find?_cons_of_pos _ (by simpa using hc), firstWithHost, if_pos hc]
    · rw [List.find?_cons_of_neg _ (by simpa using hc), firstWithHost, if_neg hc, ih]

/-- A concrete integration config used to instantiate the theorems. -/
def witConfig : GitHubIntegrationConfig :=
  { host := "ghe.example.net", apiBaseUrl := some "https://ghe.example.net/api/v3" }

/-- A concrete reader over `witConfig`. -/
def witReader : GithubUrlReader := ⟨witConfig⟩

/-- A concrete parse of `witUrl`. -/
def witParsed : ParsedGitUrl :=
  { ref := "main", full_name := "acme/widgets", filepath := "" }

/-- Concrete repository metadata. -/
def witRepo : RepoInfo :=
  { branches_url := "https://ghe.example.net/api/v3/repos/acme/widgets/branches\x7b/branch\x7d"
    archive_url := "https://ghe.example.net/api/v3/repos/acme/widgets/\x7barchive_format\x7d\x7b/ref\x7d"
    trees_url := "https://ghe.example.net/api/v3/repos/acme/widgets/git/trees\x7b/sha\x7d"
    default_branch := "main" }

/-- A concrete recursive tree listing: three blobs and one directory entry. -/
def witTree : GhTreeResponse :=
  { truncated := false
    tree :=
      [ { path := some "README.md", type := some "blob"
          url := some "https://ghe.example.net/blobs/1" }
      , { path := some "docs", type := some "tree"
          url := some "https://ghe.example.net/trees/2" }
      , { path := some "docs/index.md", type := some "blob"
          url := some "https://ghe.example.net/blobs/3" }
      , { path := some "src/main.ts", type := some "blob"
          url := some "https://ghe.example.net/blobs/4" } ] }

/-- A concrete upstream world whose archive agrees with its tree listing. -/
def witUp : Upstream :=
  { parseGit := fun _ => witParsed
    repo := witRepo
    branch := { commitSha := "deadbeef" }
    recursiveTree := witTree
    blobs := fun u =>
      if u = "https://ghe.example.net/blobs/1" then some "aGVsbG8="
      else if u = "https://ghe.example.net/blobs/3" then some "aGk="
      else none
    archiveFiles :=
      [ ("README.md", base64Decode "aGVsbG8=")
      , ("docs/index.md", base64Decode "aGk=")
      , ("src/main.ts", [1, 2, 3]) ] }

/-- The concrete URL the witness world answers. -/
def witUrl : String := "https://ghe.example.net/acme/widgets/tree/main"

/-- Claim C10 counterexample: the configs `token := some ""` and
`token := some "secret"` agree on token presence (both are `some`), yet their
`toString` outputs differ, because `Boolean("")` is `false` in JavaScript. -/
theorem toString_token_presence_counterexample :
    ({ host := "github.com", token := some "" } :
        GitHubIntegrationConfig).token.isSome =
      ({ host := "github.com", token := some "secret" } :
        GitHubIntegrationConfig).token.isSome ∧
    GithubUrlReader.toString ⟨{ host := "github.com", token := some "" }⟩ ≠
      GithubUrlReader.toString ⟨{ host := "github.com", token := some "secret" }⟩ :=
  ⟨rfl, by decide⟩

/-- Claim C10 (amended): `toString` output is a function only of the host and
the JavaScript truthiness of the token (present and non-empty): two readers
whose configs share the host and agree on token truthiness render identically,
and the output is exactly the fixed format interpolating only the host and the
boolean, never the token value. -/
theorem toString_function_of_host_and_token_truthiness
    (r1 r2 : GithubUrlReader)
    (hhost : r1.config.host = r2.config.host)
    (htok : jsTruthy r1.config.token = jsTruthy r2.config.token) :
    GithubUrlReader.toString r1 = GithubUrlReader.toString r2 ∧
    GithubUrlReader.toString r1 =
      "github\x7bhost=" ++ r1.config.host ++ ",authed=" ++
        (if jsTruthy r1.config.token then "true" else "false") ++ "\x7d" := by
  unfold GithubUrlReader.toString
  rw [hhost, htok]
  exact ⟨rfl, rfl⟩

/-- Witness for the amended Claim C10 at two concrete configs with distinct
token values of equal truthiness. -/
theorem toString_function_of_host_witness :
    (⟨{ host := "ghe.example.net", token := some "tokenA" }⟩ :
        GithubUrlReader).config.host =
      (⟨{ host := "ghe.example.net", token := some "tokenB" }⟩ :
        GithubUrlReader).config.host ∧
    jsTruthy (⟨{ host := "ghe.example.net", token := some "tokenA" }⟩ :
        GithubUrlReader).config.token =
      jsTruthy (⟨{ host := "ghe.example.net", token := some "tokenB" }⟩ :
        GithubUrlReader).config.token ∧
    GithubUrlReader.toString ⟨{ host := "ghe.example.net", token := some "tokenA" }⟩ =
      GithubUrlReader.toString ⟨{ host := "ghe.example.net", token := some "tokenB" }⟩ :=
  ⟨rfl, by decide,
    (toString_function_of_host_and_token_truthiness _ _ rfl (by decide)).1⟩

/-- Claim C6 counterexample: the config with `apiBaseUrl := some ""` and no
`rawBaseUrl` has an API base URL present, yet the constructor still throws,
because `!""` is `true` in JavaScript. -/
theorem make_empty_apiBaseUrl_counterexample :
    ({ host := "ghe.example.net", apiBaseUrl := some "" } :
        GitHubIntegrationConfig).apiBaseUrl ≠ none ∧
    ∃ e, GithubUrlReader.make { host := "ghe.example.net", apiBaseUrl := some "" } =
      .error e :=
  ⟨by decide, _, rfl⟩

/-- Claim C6 (amended): construction fails exactly when both base URLs are
JS-falsy (absent or the empty string); a config with at least one truthy
(present and non-empty) base URL is accepted. -/
theorem make_rejects_iff_both_base_urls_falsy (config : GitHubIntegrationConfig) :
    ((∃ e, GithubUrlReader.make config = .error e) ↔
      jsTruthy config.apiBaseUrl = false ∧ jsTruthy config.rawBaseUrl = false) ∧
    (jsTruthy config.apiBaseUrl = true ∨ jsTruthy config.rawBaseUrl = true →
      GithubUrlReader.make config = .ok ⟨config⟩) := by
  unfold GithubUrlReader.make
  constructor
  · split
    · next h => exact ⟨fun _ => h, fun _ => ⟨_, rfl⟩⟩
    · next h =>
      constructor
      · rintro ⟨e, he⟩
        cases he
      · intro hc
        exact absurd hc h
  · intro hor
    split
    · next h =>
      rcases hor with h1 | h1
      · rw [h.1] at h1; cases h1
      · rw [h.2] at h1; cases h1
    · rfl

/-- Witness for the amended Claim C6: a config with only a raw base URL is
accepted. -/
theorem make_rejects_iff_witness :
    GithubUrlReader.make
        { host := "ghe.example.net", rawBaseUrl := some "https://ghe.example.net/raw" } =
      .ok ⟨{ host := "ghe.example.net", rawBaseUrl := some "https://ghe.example.net/raw" }⟩ :=
  (make_rejects_iff_both_base_urls_falsy _).2 (Or.inr (by decide))

/-- Claim C4: `read` returns the full body on every 2xx status, fails with
`NotFound` exactly on HTTP 404, and fails with a generic error carrying the
upstream status and status text on every other non-2xx response, or wrapping
the thrown value on a transport failure. -/
theorem read_error_taxonomy (url ghUrl statusText text failMsg : String)
    (okStatus errStatus : Nat)
    (hok1 : 200 ≤ okStatus) (hok2 : okStatus < 300)
    (herr1 : ¬(200 ≤ errStatus ∧ errStatus < 300)) (herr2 : errStatus ≠ 404) :
    GithubUrlReader.read url ghUrl (.response okStatus statusText text) = .ok text ∧
    GithubUrlReader.read url ghUrl (.response 404 statusText text) =
      .error (.notFound (readMessage url ghUrl 404 statusText)) ∧
    GithubUrlReader.read url ghUrl (.response errStatus statusText text) =
      .error (.generic (readMessage url ghUrl errStatus statusText)) ∧
    GithubUrlReader.read url ghUrl (.failure failMsg) =
      .error (.generic ("Unable to read " ++ url ++ ", " ++ failMsg)) := by
  refine ⟨?_, ?_, ?_, rfl⟩
  · simp only [GithubUrlReader.read]
    rw [if_pos ⟨hok1, hok2⟩]
  · simp only [GithubUrlReader.read]
    rw [if_neg (by omega)]
    simp
  · simp only [GithubUrlReader.read]
    rw [if_neg herr1, if_neg herr2]

/-- Witness for Claim C4 at statuses 200 and 500. -/
theorem read_error_taxonomy_witness :
    (200 ≤ 200 ∧ 200 < 300 ∧ ¬(200 ≤ 500 ∧ 500 < 300) ∧ (500 : Nat) ≠ 404) ∧
    GithubUrlReader.read "u" "g" (.response 200 "OK" "body") = .ok "body" ∧
    GithubUrlReader.read "u" "g" (.response 404 "Not Found" "body") =
      .error (.notFound (readMessage "u" "g" 404 "Not Found")) ∧
    GithubUrlReader.read "u" "g" (.response 500 "Server Error" "body") =
      .error (.generic (readMessage "u" "g" 500 "Server Error")) ∧
    GithubUrlReader.read "u" "g" (.failure "boom") =
      .error (.generic ("Unable to read " ++ "u" ++ ", " ++ "boom")) := by
  refine ⟨by omega, ?_, ?_, ?_, ?_⟩
  · exact (read_error_taxonomy "u" "g" "OK" "body" "boom" 200 500
      (by omega) (by omega) (by omega) (by omega)).1
  · exact (read_error_taxonomy "u" "g" "Not Found" "body" "boom" 200 500
      (by omega) (by omega) (by omega) (by omega)).2.1
  · exact (read_error_taxonomy "u" "g" "Server Error" "body" "boom" 200 500
      (by omega) (by omega) (by omega) (by omega)).2.2.1
  · exact (read_error_taxonomy "u" "g" "Server Error" "body" "boom" 200 500
      (by omega) (by omega) (by omega) (by omega)).2.2.2

/-- Claim C8: `basicIntegrations(...).byUrl u` agrees with `byHost` applied to
the URL's parsed hostname; both return the first integration in list order
whose host equals that hostname, and `undefined` (`none`) when none does. -/
theorem basicIntegrations_byUrl_eq_byHost {T : Type} (l : List T)
    (getHost : T → String) (u : Url) :
    (basicIntegrations l getHost).byUrl u =
      (basicIntegrations l getHost).byHost u.hostname ∧
    (basicIntegrations l getHost).byUrl u = firstWithHost getHost u.hostname l ∧
    ((∀ i ∈ l, getHost i ≠ u.hostname) →
      (basicIntegrations l getHost).byUrl u = none) := by
  refine ⟨rfl, find?_eq_firstWithHost getHost u.hostname l, ?_⟩
  intro h
  exact List.find?_eq_none.mpr (fun i hi => by simpa using h i hi)

/-- Witness for Claim C8: concrete two-integration list, one matching URL and
one unmatched hostname. -/
theorem basicIntegrations_byUrl_eq_byHost_witness :
    (∀ i ∈ ([{ host := "gitlab.example.com" }] : List GitHubIntegrationConfig),
      i.host ≠ "github.com") ∧
    (basicIntegrations ([{ host := "gitlab.example.com" }] :
        List GitHubIntegrationConfig) (fun c => c.host)).byUrl
      { hostname := "github.com" } = none ∧
    (basicIntegrations ([{ host := "gitlab.example.com" }] :
        List GitHubIntegrationConfig) (fun c => c.host)).byUrl
        { hostname := "gitlab.example.com" } =
      firstWithHost (fun c : GitHubIntegrationConfig => c.host) "gitlab.example.com"
        [{ host := "gitlab.example.com" }] :=
  ⟨by decide,
    (basicIntegrations_byUrl_eq_byHost _ _ _).2.2 (by decide),
    (basicIntegrations_byUrl_eq_byHost _ _ _).2.1⟩

/-- `doSearch` in this model always produces a file list (upstream listing and
archive fetches are assumed to succeed). -/
theorem doSearch_never_errors (w : Upstream) (treesUrl archiveUrl sha query : String) :
    ∃ files, (doSearch w treesUrl archiveUrl sha query).1 = .ok files := by
  unfold doSearch
  split
  · exact ⟨_, rfl⟩
  · exact ⟨_, rfl⟩

/-- Claim C9: `readTree` and `search` treat an empty-string etag exactly like
an absent etag; the `NotModified` short-circuit fires precisely when the
supplied etag is a non-empty string equal to the resolved commit sha, so an
empty etag never triggers it. -/
theorem etag_empty_treated_as_absent (reader : GithubUrlReader) (w : Upstream)
    (url : String) (filter : Option (String → Bool)) :
    reader.readTree w url { etag := some "", filter := filter } =
      reader.readTree w url { etag := none, filter := filter } ∧
    reader.search w url { etag := some "" } =
      reader.search w url { etag := none } ∧
    (∀ options : ReadTreeOptions,
      ((reader.readTree w url options).1 = .error .notModified ↔
        options.etag = some w.branch.commitSha ∧ w.branch.commitSha ≠ "")) ∧
    (∀ options : SearchOptions,
      ((reader.search w url options).1 = .error .notModified ↔
        options.etag = some w.branch.commitSha ∧ w.branch.commitSha ≠ "")) := by
  refine ⟨?_, ?_, ?_, ?_⟩
  · simp [GithubUrlReader.readTree, jsTruthy, doReadTree]
  · simp [GithubUrlReader.search, jsTruthy]
  · intro options
    simp only [GithubUrlReader.readTree, getRepoDetails]
    split
    · next h =>
      constructor
      · intro _
        refine ⟨h.2, ?_⟩
        have h1 := h.1
        rw [h.2] at h1
        simpa [jsTruthy] using h1
      · intro _
        rfl
    · next h =>
      constructor
      · intro habs
        simp at habs
      · rintro ⟨h1, h2⟩
        exact (h ⟨by rw [h1]; simpa [jsTruthy] using h2, h1⟩).elim
  · intro options
    simp only [GithubUrlReader.search, getRepoDetails]
    split
    · next h =>
      constructor
      · intro _
        refine ⟨h.2, ?_⟩
        have h1 := h.1
        rw [h.2] at h1
        simpa [jsTruthy] using h1
      · intro _
        rfl
    · next h =>
      constructor
      · intro habs
        obtain ⟨files, hfiles⟩ := doSearch_never_errors w w.repo.trees_url
          w.repo.archive_url w.branch.commitSha (w.parseGit url).filepath
        rw [hfiles] at habs
        simp at habs
      · rintro ⟨h1, h2⟩
        exact (h ⟨by rw [h1]; simpa [jsTruthy] using h2, h1⟩).elim

/-- Claim C2: with an etag equal to the (non-empty) resolved commit sha, both
`readTree` and `search` fail with `NotModified`, and the request log contains
no archive, tree-listing or blob fetch: only the credential and metadata
requests that precede the short-circuit. -/
theorem notModified_short_circuits_before_content_fetch
    (reader : GithubUrlReader) (w : Upstream) (url : String)
    (rOptions : ReadTreeOptions) (sOptions : SearchOptions)
    (hsha : w.branch.commitSha ≠ "")
    (hre : rOptions.etag = some w.branch.commitSha)
    (hse : sOptions.etag = some w.branch.commitSha) :
    (reader.readTree w url rOptions).1 = .error .notModified ∧
    (reader.readTree w url rOptions).2.all (fun r => !isContentRequest r) = true ∧
    (reader.search w url sOptions).1 = .error .notModified ∧
    (reader.search w url sOptions).2.all (fun r => !isContentRequest r) = true := by
  have hj : jsTruthy (some w.branch.commitSha) = true := by
    simpa [jsTruthy] using hsha
  refine ⟨?_, ?_, ?_, ?_⟩ <;>
    simp [GithubUrlReader.readTree, GithubUrlReader.search, getRepoDetails,
      hre, hse, hj, isContentRequest]

/-- Witness for Claim C2 at the concrete upstream `witUp`. -/
theorem notModified_short_circuit_witness :
    witUp.branch.commitSha ≠ "" ∧
    (witReader.readTree witUp witUrl { etag := some "deadbeef" }).1 =
      .error .notModified ∧
    (witReader.readTree witUp witUrl { etag := some "deadbeef" }).2.all
      (fun r => !isContentRequest r) = true ∧
    (witReader.search witUp witUrl { etag := some "deadbeef" }).1 =
      .error .notModified ∧
    (witReader.search witUp witUrl { etag := some "deadbeef" }).2.all
      (fun r => !isContentRequest r) = true := by
  have h := notModified_short_circuits_before_content_fetch witReader witUp witUrl
    { etag := some "deadbeef" } { etag := some "deadbeef" } (by decide) rfl rfl
  exact ⟨by decide, h.1, h.2.1, h.2.2.1, h.2.2.2⟩

/-- Claim C5: the etag stamped on a successful `readTree` or `search` response
equals the commit sha resolved at request time, and a subsequent `readTree` on
the same URL against the same upstream with that etag fails `NotModified`. -/
theorem readTree_search_etag_roundtrip (reader : GithubUrlReader) (w : Upstream)
    (url : String) (rOptions : ReadTreeOptions) (sOptions : SearchOptions)
    (rt : ReadTreeResponse) (sr : SearchResponse)
    (hrt : (reader.readTree w url rOptions).1 = .ok rt)
    (hsr : (reader.search w url sOptions).1 = .ok sr)
    (hsha : w.branch.commitSha ≠ "") :
    rt.etag = w.branch.commitSha ∧ sr.etag = w.branch.commitSha ∧
    (reader.readTree w url { rOptions with etag := some rt.etag }).1 =
      .error .notModified ∧
    (reader.readTree w url { etag := some sr.etag }).1 = .error .notModified := by
  have h1 : rt.etag = w.branch.commitSha := by
    simp only [GithubUrlReader.readTree, getRepoDetails] at hrt
    split at hrt
    · simp at hrt
    · simp only [Except.ok.injEq] at hrt
      rw [← hrt]
      simp [doReadTree, fromTarArchive]
  have h2 : sr.etag = w.branch.commitSha := by
    simp only [GithubUrlReader.search, getRepoDetails] at hsr
    split at hsr
    · simp at hsr
    · split at hsr
      · simp only [Except.ok.injEq] at hsr
        rw [← hsr]
      · simp at hsr
  refine ⟨h1, h2, ?_, ?_⟩ <;>
    simp [GithubUrlReader.readTree, getRepoDetails, h1, h2, jsTruthy, hsha]

/-- Witness for Claim C5: the roundtrip at the concrete upstream `witUp`. -/
theorem readTree_search_etag_roundtrip_witness :
    ∃ (rt : ReadTreeResponse) (sr : SearchResponse),
      (witReader.readTree witUp witUrl {}).1 = .ok rt ∧
      (witReader.search witUp witUrl {}).1 = .ok sr ∧
      rt.etag = witUp.branch.commitSha ∧ sr.etag = witUp.branch.commitSha ∧
      (witReader.readTree witUp witUrl { etag := some rt.etag }).1 =
        .error .notModified ∧
      (witReader.readTree witUp witUrl { etag := some sr.etag }).1 =
        .error .notModified := by
  refine ⟨_, _, rfl, rfl, ?_⟩
  have h := readTree_search_etag_roundtrip witReader witUp witUrl {} {} _ _
    rfl rfl (by decide)
  exact ⟨h.1, h.2.1, h.2.2.1, h.2.2.2⟩

/-- Claim C7: every Response File produced by search's direct-listing path has
a deferred accessor that is a pure function of the blob response at one fixed
blob URL: it always returns the base64 decoding of that blob's content, and
any two invocations seeing the same upstream blob response return identical
bytes (no memoization or state between invocations). -/
theorem search_content_accessor_deterministic (w : Upstream)
    (treesUrl archiveUrl sha query : String)
    (htr : w.recursiveTree.truncated = false)
    (files : List ResponseFile)
    (hok : (doSearch w treesUrl archiveUrl sha query).1 = .ok files) :
    ∀ f ∈ files, ∃ blobUrl : String,
      (∀ w2 : Upstream, f.content w2 = (fetchBlob w2 blobUrl).map base64Decode) ∧
      (∀ w1 w2 : Upstream, w1.blobs blobUrl = w2.blobs blobUrl →
        f.content w1 = f.content w2) := by
  unfold doSearch at hok
  rw [htr] at hok
  simp only [Bool.not_false, if_pos] at hok
  simp only [Except.ok.injEq] at hok
  subst hok
  intro f hf
  obtain ⟨item, _, hitem⟩ := List.mem_map.mp hf
  refine ⟨item.url.getD "", ?_, ?_⟩
  · intro w2
    rw [← hitem]
  · intro w1 w2 hb
    rw [← hitem]
    simp only
    unfold fetchBlob
    rw [hb]

/-- Witness for Claim C7: the accessors produced over the concrete upstream
`witUp`, whose listing is not truncated. -/
theorem search_content_accessor_witness :
    witUp.recursiveTree.truncated = false ∧
    ∃ files, (doSearch witUp "t" "a" "deadbeef" "**/*.md").1 = .ok files ∧
      ∀ f ∈ files, ∃ blobUrl : String,
        (∀ w2 : Upstream, f.content w2 = (fetchBlob w2 blobUrl).map base64Decode) ∧
        (∀ w1 w2 : Upstream, w1.blobs blobUrl = w2.blobs blobUrl →
          f.content w1 = f.content w2) :=
  ⟨rfl, _, rfl,
    search_content_accessor_deterministic witUp "t" "a" "deadbeef" "**/*.md" rfl _ rfl⟩

/-- `resolveUrlReader` over the factory's pairs is the first config whose host
equals `url.host`, in configuration order. -/
theorem githubFactoryPairs_resolve (configs : List GitHubIntegrationConfig)
    (pairs : List (GithubUrlReader × (Url → Bool)))
    (hf : githubFactoryPairs configs = .ok pairs) (url : Url) :
    resolveUrlReader pairs url =
      match configs.find? (fun c => decide (url.host = c.host)) with
      | some c => .ok ⟨c⟩
      | none => .error (.unsupportedUrl "Reader for URL is not supported") := by
  induction configs generalizing pairs with
  | nil =>
    simp only [githubFactoryPairs] at hf
    cases hf
    rfl
  | cons c cs ih =>
    rw [githubFactoryPairs] at hf
    cases hmk : GithubUrlReader.make c with
    | error e =>
      rw [hmk] at hf
      simp [Bind.bind, Except.bind] at hf
    | ok reader =>
      rw [hmk] at hf
      cases hrest : githubFactoryPairs cs with
      | error e =>
        rw [hrest] at hf
        simp [Bind.bind, Except.bind] at hf
      | ok rest =>
        rw [hrest] at hf
        simp only [Bind.bind, Except.bind, Except.ok.injEq] at hf
        have hr : reader = ⟨c⟩ := by
          unfold GithubUrlReader.make at hmk
          split at hmk
          · cases hmk
          · cases hmk; rfl
        subst hr
        rw [← hf]
        unfold resolveUrlReader
        by_cases hc : url.host = c.host
        · rw [List.find?_cons_of_pos _ (by simpa using hc),
            List.find?_cons_of_pos _ (by simpa using hc)]
        · rw [List.find?_cons_of_neg _ (by simpa using hc),
            List.find?_cons_of_neg _ (by simpa using hc)]
          exact ih rest hrest

/-- Under pairwise-distinct hosts, the first config whose host equals the
URL's host is the unique matching config. -/
theorem find?_host_of_distinct (url : Url) (c : GitHubIntegrationConfig)
    (configs : List GitHubIntegrationConfig)
    (hdist : configs.Pairwise (fun a b => a.host ≠ b.host))
    (hc : c ∈ configs) (heq : url.host = c.host) :
    configs.find? (fun d => decide (url.host = d.host)) = some c := by
  induction configs with
  | nil => cases hc
  | cons a as ih =>
    rcases List.mem_cons.mp hc with rfl | hmem
    · exact List.find?_cons_of_pos _ (by simpa using heq)
    · have hne : a.host ≠ c.host := (List.pairwise_cons.mp hdist).1 c hmem
      have hna : ¬ url.host = a.host := fun h => hne (h.symm.trans heq)
      rw [List.find?_cons_of_neg _ (by simpa using hna)]
      exact ih (List.pairwise_cons.mp hdist).2 hmem

/-- A configured integration whose host carries an explicit port. -/
def portedConfig : GitHubIntegrationConfig :=
  { host := "ghe.example.net:8080"
    apiBaseUrl := some "https://ghe.example.net:8080/api/v3" }

/-- The URL whose WHATWG `host` is `ghe.example.net:8080` but whose `hostname`
is `ghe.example.net`. -/
def portedUrl : Url := { hostname := "ghe.example.net", port := some "8080" }

/-- Claim C3 counterexample: for the configured host `ghe.example.net:8080`
and the URL with hostname `ghe.example.net` and port `8080`, the registry
predicate (which compares `url.host`) selects the integration, but the
helpers' `byUrl` (which compares the parsed `hostname`) finds nothing: the
two lookups do not agree as the claim states. -/
theorem host_resolution_counterexample :
    portedUrl.host = portedConfig.host ∧
    ∃ pairs,
      githubFactoryPairs [portedConfig] = .ok pairs ∧
      resolveUrlReader pairs portedUrl = .ok ⟨portedConfig⟩ ∧
      (basicIntegrations [portedConfig] (fun c => c.host)).byUrl portedUrl = none := by
  refine ⟨by decide, _, rfl, ?_, by decide⟩
  rfl

/-- A second concrete integration config, used alongside `witConfig` for the
registry-resolution witness. -/
def ghComConfig : GitHubIntegrationConfig :=
  { host := "github.com", apiBaseUrl := some "https://api.github.com" }

/-- Claim C3 (amended): over factory pairs built from configs with pairwise
distinct hosts, resolution returns the integration whose host equals
`url.host` (exact match) and `UnsupportedUrl` when no configured host equals
it; the helpers' `byUrl` equals `byHost` on the URL's `hostname` (host without
the port), and agrees with registry resolution whenever the URL carries no
port. -/
theorem host_resolution_exact_match (configs : List GitHubIntegrationConfig)
    (pairs : List (GithubUrlReader × (Url → Bool)))
    (hf : githubFactoryPairs configs = .ok pairs)
    (hdist : configs.Pairwise (fun a b => a.host ≠ b.host)) (url : Url) :
    (∀ c ∈ configs, url.host = c.host → resolveUrlReader pairs url = .ok ⟨c⟩) ∧
    ((∀ c ∈ configs, url.host ≠ c.host) →
      resolveUrlReader pairs url =
        .error (.unsupportedUrl "Reader for URL is not supported")) ∧
    ((basicIntegrations configs (fun c => c.host)).byUrl url =
      (basicIntegrations configs (fun c => c.host)).byHost url.hostname) ∧
    (url.port = none →
      ((basicIntegrations configs (fun c => c.host)).byUrl url).map
          (fun c => (⟨c⟩ : GithubUrlReader)) =
        (resolveUrlReader pairs url).toOption) := by
  rw [githubFactoryPairs_resolve configs pairs hf url]
  refine ⟨?_, ?_, rfl, ?_⟩
  · intro c hc heq
    rw [find?_host_of_distinct url c configs hdist hc heq]
  · intro hno
    rw [List.find?_eq_none.mpr (fun d hd => by simpa using hno d hd)]
  · intro hport
    have hh : url.host = url.hostname := by
      unfold Url.host
      rw [hport]
    simp only [basicIntegrations]
    rw [show (fun i : GitHubIntegrationConfig => decide (i.host = url.hostname)) =
        (fun i => decide (url.host = i.host)) from funext fun i =>
          decide_eq_decide.mpr (by rw [hh]; exact eq_comm)]
    cases hfind : configs.find? (fun i => decide (url.host = i.host)) <;>
      simp [Except.toOption]

/-- Witness for the amended Claim C3: two distinct-host configs, a URL that
resolves to the second, an unmatched URL, and the port-free agreement of
`byUrl` with registry resolution. -/
theorem host_resolution_witness :
    ∃ pairs,
      githubFactoryPairs [witConfig, ghComConfig] = .ok pairs ∧
      ([witConfig, ghComConfig].Pairwise (fun a b => a.host ≠ b.host)) ∧
      resolveUrlReader pairs { hostname := "github.com" } = .ok ⟨ghComConfig⟩ ∧
      resolveUrlReader pairs { hostname := "nomatch.example.org" } =
        .error (.unsupportedUrl "Reader for URL is not supported") ∧
      ((basicIntegrations [witConfig, ghComConfig] (fun c => c.host)).byUrl
          { hostname := "github.com" }).map (fun c => (⟨c⟩ : GithubUrlReader)) =
        (resolveUrlReader pairs { hostname := "github.com" }).toOption := by
  have hd : ([witConfig, ghComConfig] : List GitHubIntegrationConfig).Pairwise
      (fun a b => a.host ≠ b.host) := by
    simp [List.pairwise_cons, witConfig, ghComConfig]
  refine ⟨_, rfl, hd, ?_, ?_, ?_⟩
  · exact (host_resolution_exact_match [witConfig, ghComConfig] _ rfl hd
      { hostname := "github.com" }).1 ghComConfig (by simp) (by decide)
  · exact (host_resolution_exact_match [witConfig, ghComConfig] _ rfl hd
      { hostname := "nomatch.example.org" }).2.1 (by decide)
  · exact (host_resolution_exact_match [witConfig, ghComConfig] _ rfl hd
      { hostname := "github.com" }).2.2.2 rfl

/-- At the repository root (empty subpath), the Tree Materializer's file paths
are exactly the archive paths that pass the filter. -/
theorem fromTarArchive_root_paths (archiveFiles : List (String × List Nat))
    (etag : String) (f : String → Bool) :
    (fromTarArchive archiveFiles "" etag (some f)).files.map (fun g => g.path) =
      (archiveFiles.map Prod.fst).filter f := by
  have key : ∀ l : List (String × List Nat),
      (l.filterMap (fun entry => if f entry.1 then some entry else none)).map
          ((fun g : ResponseFile => g.path) ∘
            (fun e : String × List Nat =>
              ({ path := e.1, content := fun _ => Except.ok e.2 } : ResponseFile))) =
        (l.map Prod.fst).filter f := by
    intro l
    induction l with
    | nil => rfl
    | cons a as ih =>
      by_cases h : f a.1 <;>
        simp [List.filterMap_cons, h, List.filter_cons, ih]
  show ((archiveFiles.filterMap fun entry =>
      if f entry.1 then some entry else none).map
        (fun e : String × List Nat =>
          ({ path := e.1, content := fun _ => Except.ok e.2 } : ResponseFile))).map
      (fun g => g.path) = (archiveFiles.map Prod.fst).filter f
  rw [List.map_map]
  exact key archiveFiles

/-- Over a non-truncated listing, `doSearch` succeeds and its matched paths are
exactly the listed entries that are blobs with truthy path and url and match
the glob. -/
theorem doSearch_direct_paths (w : Upstream) (treesUrl archiveUrl sha query : String)
    (htr : w.recursiveTree.truncated = false) :
    ∃ direct, (doSearch w treesUrl archiveUrl sha query).1 = .ok direct ∧
      direct.map (fun f => f.path) =
        (w.recursiveTree.tree.filter (fun item =>
          decide (item.type = some "blob") && jsTruthy item.path && jsTruthy item.url &&
            searchMatcher query (item.path.getD ""))).map
          (fun item => item.path.getD "") := by
  simp only [doSearch, htr, Bool.not_false, if_true]
  refine ⟨_, rfl, ?_⟩
  rw [List.map_map]
  rfl

/-- Over a truncated listing, `doSearch` succeeds via the full-tree fallback
and its matched paths are exactly the archive paths that match the glob. -/
theorem doSearch_fallback_paths (w : Upstream) (treesUrl archiveUrl sha query : String)
    (htr : w.recursiveTree.truncated = true) :
    ∃ fallback, (doSearch w treesUrl archiveUrl sha query).1 = .ok fallback ∧
      fallback.map (fun f => f.path) =
        (w.archiveFiles.map Prod.fst).filter (fun p => searchMatcher query p) := by
  simp only [doSearch, htr, Bool.not_true, if_false, doReadTree]
  exact ⟨_, rfl,
    fromTarArchive_root_paths w.archiveFiles sha (fun p => searchMatcher query p)⟩

/-- Claim C1: for any two upstreams that present the same commit tree — one
whose recursive listing is not truncated and one whose listing is truncated
but whose archive holds exactly the listed blob files — `search`'s two
strategies produce the same matched-file path set: the direct listing yields
exactly the blob-type entries matching the glob, and the fallback through a
full `doReadTree` with the glob compiled into the path filter yields an equal
path list. -/
theorem search_strategy_independent (w1 w2 : Upstream)
    (treesUrl archiveUrl sha query : String)
    (htr1 : w1.recursiveTree.truncated = false)
    (htr2 : w2.recursiveTree.truncated = true)
    (harch : w2.archiveFiles = w1.archiveFiles)
    (hwf : ∀ item ∈ w1.recursiveTree.tree, item.type = some "blob" →
      jsTruthy item.path = true ∧ jsTruthy item.url = true)
    (hcons : w1.archiveFiles.map Prod.fst =
      (w1.recursiveTree.tree.filter (fun item =>
        decide (item.type = some "blob") && jsTruthy item.path &&
          jsTruthy item.url)).map (fun item => item.path.getD "")) :
    ∃ direct fallback : List ResponseFile,
      (doSearch w1 treesUrl archiveUrl sha query).1 = .ok direct ∧
      (doSearch w2 treesUrl archiveUrl sha query).1 = .ok fallback ∧
      direct.map (fun f => f.path) =
        (w1.recursiveTree.tree.filter (fun item =>
          decide (item.type = some "blob") &&
            searchMatcher query (item.path.getD ""))).map
          (fun item => item.path.getD "") ∧
      fallback.map (fun f => f.path) = direct.map (fun f => f.path) := by
  obtain ⟨direct, hd, hdp⟩ := doSearch_direct_paths w1 treesUrl archiveUrl sha query htr1
  obtain ⟨fallback, hf2, hfp⟩ :=
    doSearch_fallback_paths w2 treesUrl archiveUrl sha query htr2
  have hfil : w1.recursiveTree.tree.filter (fun item =>
      decide (item.type = some "blob") && jsTruthy item.path && jsTruthy item.url &&
        searchMatcher query (item.path.getD "")) =
      w1.recursiveTree.tree.filter (fun item =>
        decide (item.type = some "blob") && searchMatcher query (item.path.getD "")) := by
    apply List.filter_congr
    intro item hmem
    by_cases ht : item.type = some "blob"
    · obtain ⟨hp, hu⟩ := hwf item hmem ht
      simp [ht, hp, hu]
    · simp [ht]
  refine ⟨direct, fallback, hd, hf2, ?_, ?_⟩
  · rw [hdp, hfil]
  · rw [hfp, hdp, harch, hcons, map_filter_comm, filterFilter]

/-- The truncated twin of `witUp`: same tree entries, same archive, but the
listing reports itself as truncated. -/
def witUpTrunc : Upstream :=
  { parseGit := witUp.parseGit
    repo := witRepo
    branch := { commitSha := "deadbeef" }
    recursiveTree := { truncated := true, tree := witTree.tree }
    blobs := witUp.blobs
    archiveFiles := witUp.archiveFiles }

/-- Witness for Claim C1 over the concrete pair `witUp` / `witUpTrunc` with
query `**/*.md`. -/
theorem search_strategy_independent_witness :
    witUp.recursiveTree.truncated = false ∧
    witUpTrunc.recursiveTree.truncated = true ∧
    witUpTrunc.archiveFiles = witUp.archiveFiles ∧
    (∀ item ∈ witUp.recursiveTree.tree, item.type = some "blob" →
      jsTruthy item.path = true ∧ jsTruthy item.url = true) ∧
    witUp.archiveFiles.map Prod.fst =
      (witUp.recursiveTree.tree.filter (fun item =>
        decide (item.type = some "blob") && jsTruthy item.path &&
          jsTruthy item.url)).map (fun item => item.path.getD "") ∧
    (∃ direct fallback : List ResponseFile,
      (doSearch witUp "t" "a" "deadbeef" "**/*.md").1 = .ok direct ∧
      (doSearch witUpTrunc "t" "a" "deadbeef" "**/*.md").1 = .ok fallback ∧
      direct.map (fun f => f.path) =
        (witUp.recursiveTree.tree.filter (fun item =>
          decide (item.type = some "blob") &&
            searchMatcher "**/*.md" (item.path.getD ""))).map
          (fun item => item.path.getD "") ∧
      fallback.map (fun f => f.path) = direct.map (fun f => f.path)) :=
  ⟨rfl, rfl, rfl, by decide, by decide,
    search_strategy_independent witUp witUpTrunc "t" "a" "deadbeef" "**/*.md"
      rfl rfl rfl (by decide) (by decide)⟩

end Backstage
